import Mathlib

/-!
# Formal model of the stock-market movers pipeline (`streamlit_app.py`)

A shallow embedding of the data pipeline in `streamlit_app.py`:
input normalization, per-symbol extraction from the fetched table,
adjusted-close fallback, shares resolution, market-cap computation,
and the top-movers aggregation.

Prices are modelled as rationals; a pandas `NaN` cell is `none`.
A pandas `Series`/column is a `List (Option ℚ)`; a flat `DataFrame`
is an ordered association list from column name to column.  The
fetched table from `yf.download` is either flat (one requested
symbol) or multi-indexed by `(field, symbol)` pairs (several
requested symbols).  Operations that raise exceptions in Python
(e.g. `KeyError` on a missing column, or `.loc` tuple indexing of a
flat frame) return `none`; the outer `try/except` of the script
turns such a failure into a generic error outcome.
-/

/-- A pandas column: one optional rational per row (`none` is `NaN`). -/
abbrev Col := List (Option ℚ)

/-- A flat per-symbol `DataFrame`: ordered (column-name, column) pairs. -/
structure DF where
  cols : List (String × Col)
deriving Repr, DecidableEq

/-- Membership test `name in df.columns`. -/
def DF.hasCol (df : DF) (name : String) : Bool :=
  df.cols.any (fun c => c.1 == name)

/-- Column access `df[name]`: `some` column when present, `none` for the `KeyError` case. -/
def DF.getCol (df : DF) (name : String) : Option Col :=
  (df.cols.find? (fun c => c.1 == name)).map Prod.snd

/-- Column assignment `df[name] = v`: replace in place when present, else append. -/
def DF.setCol (df : DF) (name : String) (v : Col) : DF :=
  if df.hasCol name then
    ⟨df.cols.map (fun c => if c.1 == name then (name, v) else c)⟩
  else
    ⟨df.cols ++ [(name, v)]⟩

/-- The result of `yf.download`: flat for one requested symbol,
`(field, symbol)`-multi-indexed columns for several. -/
inductive Fetched where
  | single (df : DF)
  | multi (cols : List ((String × String) × Col))
deriving Repr, DecidableEq

/-- Emptiness test `data.empty`: no columns, or every column has no rows. -/
def Fetched.isEmpty : Fetched → Bool
  | .single df => df.cols.isEmpty || df.cols.all (fun c => c.2.isEmpty)
  | .multi cols => cols.isEmpty || cols.all (fun c => c.2.isEmpty)

/-- Python `str.split(",")` over the character list: each comma ends a
part, so a string with `n` commas yields `n + 1` parts and the empty
string yields `[[]]` (one empty part), exactly as in CPython. -/
def pySplitComma : List Char → List (List Char)
  | [] => [[]]
  | c :: rest =>
      let r := pySplitComma rest
      if c = ',' then [] :: r
      else
        match r with
        | [] => [[c]]
        | t :: ts => (c :: t) :: ts

/-- Python `str.strip()`: drop leading and trailing whitespace. -/
def pyStrip (cs : List Char) : List Char :=
  ((cs.dropWhile Char.isWhitespace).reverse.dropWhile Char.isWhitespace).reverse

/-- Python `str.upper()` (ASCII uppercasing suffices for tickers). -/
def pyUpper (cs : List Char) : List Char :=
  cs.map Char.toUpper

/-- Line 21: `[stock.strip().upper() for stock in stocks_input.split(",")]`. -/
def parseStocks (stocksInput : String) : List String :=
  (pySplitComma stocksInput.data).map (fun cs => String.mk (pyUpper (pyStrip cs)))

/-- Lines 52-56: extract one symbol's flat table from the fetched data.
For more than one requested symbol,
`data.loc[:, (slice(None), stock)].copy()` keeps the `(field, stock)`
column pairs in order and `droplevel(1)` removes the symbol label;
tuple-based `.loc` indexing of a flat frame raises (→ `none`).
For exactly one requested symbol, `data.copy()` is used as-is; the
fetch contract (spec §6) guarantees the flat shape in that case, so a
multi-shaped table there is treated as the error case. -/
def extractStock (stocks : List String) (data : Fetched) (stock : String) :
    Option DF :=
  if stocks.length > 1 then
    match data with
    | .multi cols =>
        some ⟨(cols.filter (fun c => c.1.2 == stock)).map (fun c => (c.1.1, c.2))⟩
    | .single _ => none
  else
    match data with
    | .single df => some df
    | .multi _ => none

/-- The warning text of lines 61-63. -/
def adjCloseWarning (stock : String) : String :=
  "Adjusted Close price not found for " ++ stock ++ ". Using Close price instead."

/-- Lines 60-64: if `"Adj Close"` is missing, copy the `"Close"` column
into it and warn; a missing `"Close"` column raises `KeyError` (→ `none`). -/
def resolveAdjClose (stock : String) (df : DF) : Option (DF × List String) :=
  if df.hasCol "Adj Close" then some (df, [])
  else
    match df.getCol "Close" with
    | some c => some (df.setCol "Adj Close" c, [adjCloseWarning stock])
    | none => none

/-- The warning text of lines 72-74. -/
def sharesWarning (stock : String) : String :=
  "Could not fetch outstanding shares for " ++ stock ++
    ". Using a constant value (1,000,000,000) instead."

/-- Lines 68-75: look up `sharesOutstanding`; every failure mode is one
`except` branch substituting the constant 1,000,000,000 with a warning.
The external lookup is a function `String → Option ℕ` (`none` = any failure). -/
def resolveShares (lookup : String → Option ℕ) (stock : String) :
    ℕ × List String :=
  match lookup stock with
  | some n => (n, [])
  | none => (1000000000, [sharesWarning stock])

/-- Elementwise `series * outstanding_shares` (NaN propagates). -/
def colMulNat (c : Col) (k : ℕ) : Col :=
  c.map (fun x => x.map (fun p => p * (k : ℚ)))

/-- Differencing `series.diff()`: first entry `NaN`, entry `t` is `x[t] - x[t-1]`,
`NaN` when either operand is `NaN`. -/
def colDiff (c : Col) : Col :=
  match c with
  | [] => []
  | _ :: tail =>
      none :: List.zipWith
        (fun cur prev =>
          match cur, prev with
          | some a, some b => some (a - b)
          | _, _ => none)
        tail c

/-- Lines 78-83: append `"Market Cap"` = adjusted close × shares, then
`"Market Cap Change"` = its `diff()`. -/
def addMarketCapCols (df : DF) (shares : ℕ) : Option DF := do
  let adj ← df.getCol "Adj Close"
  let df1 := df.setCol "Market Cap" (colMulNat adj shares)
  let mc ← df1.getCol "Market Cap"
  return df1.setCol "Market Cap Change" (colDiff mc)

/-- The body of the per-stock loop (lines 50-86) for one stock:
extract, resolve the price field, resolve shares, add market-cap
columns; returns the enriched frame and the warnings it emitted. -/
def processSymbol (lookup : String → Option ℕ) (stocks : List String)
    (data : Fetched) (stock : String) : Option (DF × List String) := do
  let df0 ← extractStock stocks data stock
  let (df1, n1) ← resolveAdjClose stock df0
  let (shares, n2) := resolveShares lookup stock
  let df2 ← addMarketCapCols df1 shares
  return (df2, n1 ++ n2)

/-- Dict assignment `stock_data[stock] = stock_df`: assignment to an
existing key replaces the value in place, a new key is appended. -/
def dictInsert {α : Type} (d : List (String × α)) (k : String) (v : α) :
    List (String × α) :=
  if d.any (fun p => p.1 == k) then
    d.map (fun p => if p.1 == k then (k, v) else p)
  else
    d ++ [(k, v)]

/-- Lines 49-86: the per-stock loop, building the `stock_data` dict and
accumulating the warnings in emission order. -/
def processAll (lookup : String → Option ℕ) (stocks : List String)
    (data : Fetched) : Option (List (String × DF) × List String) :=
  stocks.foldlM
    (fun acc stock => do
      let (df, ns) ← processSymbol lookup stocks data stock
      return (dictInsert acc.1 stock df, acc.2 ++ ns))
    (([] : List (String × DF)), ([] : List String))

/-- One row of `top_movers_df`. -/
structure MoverRecord where
  stock : String
  total : ℚ
deriving Repr, DecidableEq

/-- Summation `series.sum()`: pandas skips `NaN` cells, so `none` contributes 0. -/
def colSum (c : Col) : ℚ :=
  (c.map (fun x => x.getD 0)).sum

/-- Lines 98-107: one `MoverRecord` per `stock_data` entry, in dict
order, with total = `stock_df["Market Cap Change"].sum()`; a missing
change column would raise `KeyError` (→ `none`). -/
def moverRecords : List (String × DF) → Option (List MoverRecord)
  | [] => some []
  | p :: rest => do
      let ch ← p.2.getCol "Market Cap Change"
      let rs ← moverRecords rest
      return MoverRecord.mk p.1 (colSum ch) :: rs

/-- The `sort_values("Total Market Cap Change", ascending=False)` ordering:
record `a` may precede `b` when `b.total ≤ a.total`. -/
def descByTotal (a b : MoverRecord) : Prop :=
  b.total ≤ a.total

/-- The `sort_values("Total Market Cap Change", ascending=True)` ordering:
record `a` may precede `b` when `a.total ≤ b.total`. -/
def ascByTotal (a b : MoverRecord) : Prop :=
  a.total ≤ b.total

instance : DecidableRel descByTotal :=
  fun a b => inferInstanceAs (Decidable (b.total ≤ a.total))

instance : DecidableRel ascByTotal :=
  fun a b => inferInstanceAs (Decidable (a.total ≤ b.total))

/-- Lines 110-112: sort by total descending, keep the first 5
(`.head(5)`).  `sort_values` is modelled as a comparison sort; the
order among equal totals is unspecified by the source. -/
def topGainers (records : List MoverRecord) : List MoverRecord :=
  (records.insertionSort descByTotal).take 5

/-- Lines 113-115: sort by total ascending, keep the first 5. -/
def topLosers (records : List MoverRecord) : List MoverRecord :=
  (records.insertionSort ascByTotal).take 5

/-- Everything the run surfaces to the presentation layer. -/
inductive Outcome where
  | dateError
  | noSymbolsWarning
  | emptyDataWarning
  | genericError
  | results (stockData : List (String × DF)) (records : List MoverRecord)
      (gainers : List MoverRecord) (losers : List MoverRecord)
      (notices : List String)
deriving Repr, DecidableEq

/-- Lines 17-125: the whole run.  Dates are calendar-day ordinals.
Validation first (line 31), then the `if stocks:` truthiness test
(line 35), then the fetch and the `data.empty` test (lines 37-41),
then the per-stock loop and the aggregation; any exception inside the
`try` is caught at line 122 as a generic error. -/
def runApp (startDate endDate : ℤ) (stocksInput : String)
    (fetch : List String → Fetched) (lookup : String → Option ℕ) : Outcome :=
  let stocks := parseStocks stocksInput
  if startDate ≥ endDate then .dateError
  else if stocks.isEmpty then .noSymbolsWarning
  else
    let data := fetch stocks
    if data.isEmpty then .emptyDataWarning
    else
      match processAll lookup stocks data with
      | none => .genericError
      | some (stockData, notices) =>
          match moverRecords stockData with
          | none => .genericError
          | some recs =>
              .results stockData recs (topGainers recs) (topLosers recs) notices

/-!
## Object-level (heap) semantics of the per-stock loop

The pure model above gives each pandas frame value semantics, which
silently builds in the effect of `.copy()` at lines 53/56.  To settle
the aliasing question itself we also give the loop an explicit
heap-and-reference semantics: pandas objects live in heap cells,
`.copy()` allocates a fresh cell, and each in-place column assignment
(`stock_df[...] = ...`, lines 64, 78, 83) writes through the
`stock_df` reference.  Had the extraction produced a view of the
fetched table instead of a copy, those writes would hit the fetched
table's cell.
-/

/-- A heap of pandas objects; a per-symbol frame is stored flat. -/
abbrev Heap := List Fetched

/-- A reference to a pandas object: an index into the heap. -/
abbrev Ref := ℕ

/-- Dereference (`none` = dangling reference). -/
def readT (h : Heap) (r : Ref) : Option Fetched :=
  h[r]?

/-- Overwrite the object in cell `r`. -/
def writeT (h : Heap) (r : Ref) (t : Fetched) : Heap :=
  h.set r t

/-- Allocate a fresh cell holding `t`. -/
def allocT (h : Heap) (t : Fetched) : Heap × Ref :=
  (h ++ [t], h.length)

/-- Lines 50-86, one iteration, with explicit references: read the
fetched table through `dataRef`, extract the stock's frame and
allocate a fresh cell for it (the `.copy()`), then perform the
adjusted-close fallback and the two market-cap column assignments as
writes through the `stock_df` reference.  Warnings are tracked by the
pure model; here only the heap effects matter. -/
def processSymbolS (lookup : String → Option ℕ) (stocks : List String)
    (dataRef : Ref) (heap : Heap) (stock : String) : Option (Heap × Ref) := do
  let dataT ← readT heap dataRef
  let df0 ← extractStock stocks dataT stock
  let (heap1, r) := allocT heap (.single df0)
  let (df1, _n1) ← resolveAdjClose stock df0
  let heap2 := writeT heap1 r (.single df1)
  let (shares, _n2) := resolveShares lookup stock
  let df2 ← addMarketCapCols df1 shares
  return (writeT heap2 r (.single df2), r)

/-- The whole per-stock loop under the heap semantics, returning the
final heap and the `stock_data` dict of references. -/
def processAllS (lookup : String → Option ℕ) (stocks : List String)
    (dataRef : Ref) (heap : Heap) : Option (Heap × List (String × Ref)) :=
  stocks.foldlM
    (fun acc stock => do
      let (h2, r) ← processSymbolS lookup stocks dataRef acc.1 stock
      return (h2, dictInsert acc.2 stock r))
    (heap, ([] : List (String × Ref)))

/-! ## Column-access lemmas -/

theorem find?_map_replace_self (cols : List (String × Col)) (n : String) (v : Col)
    (h : cols.any (fun c => c.1 == n) = true) :
    (cols.map (fun c => if c.1 == n then (n, v) else c)).find?
      (fun c => c.1 == n) = some (n, v) := by
  induction cols with
  | nil => simp at h
  | cons c cs ih =>
      simp only [List.map_cons, List.find?_cons]
      by_cases hc : c.1 = n
      · simp only [beq_iff_eq, hc, if_true, ite_true]
        simp
      · have hc2 : (c.1 == n) = false := by simp [hc]
        simp only [beq_iff_eq, hc, ite_false, if_false, hc2]
        have h2 : (cs.any fun c => c.1 == n) = true := by
          simp only [List.any_cons, hc2, Bool.false_or] at h
          exact h
        simpa [hc2] using ih h2

theorem find?_map_replace_ne (cols : List (String × Col)) (n m : String) (v : Col)
    (hnm : m ≠ n) :
    (cols.map (fun c => if c.1 == n then (n, v) else c)).find?
      (fun c => c.1 == m) = cols.find? (fun c => c.1 == m) := by
  induction cols with
  | nil => simp
  | cons c cs ih =>
      simp only [List.map_cons, List.find?_cons]
      by_cases hc : c.1 = n
      · have hm : (c.1 == m) = false := by
          simp [hc]; exact fun h => hnm h.symm
        have hm2 : ((n : String) == m) = false := by
          simp; exact fun h => hnm h.symm
        simp only [beq_iff_eq, hc, ite_true, hm2, hm]
        simpa using ih
      · simp only [beq_iff_eq, hc, ite_false]
        cases hcm : (c.1 == m) with
        | true => rfl
        | false => simpa using ih

theorem getCol_setCol_self (df : DF) (n : String) (v : Col) :
    (df.setCol n v).getCol n = some v := by
  unfold DF.setCol
  by_cases h : df.hasCol n
  · rw [if_pos h]
    unfold DF.getCol
    rw [show (DF.mk (df.cols.map (fun c => if c.1 == n then (n, v) else c))).cols
        = df.cols.map (fun c => if c.1 == n then (n, v) else c) from rfl]
    rw [find?_map_replace_self df.cols n v (by simpa [DF.hasCol] using h)]
    rfl
  · rw [if_neg h]
    unfold DF.getCol
    have hnone : df.cols.find? (fun c => c.1 == n) = none := by
      rw [List.find?_eq_none]
      intro x hx hb
      exact h (by simp only [DF.hasCol, List.any_eq_true]; exact ⟨x, hx, hb⟩)
    rw [show (DF.mk (df.cols ++ [(n, v)])).cols = df.cols ++ [(n, v)] from rfl]
    rw [List.find?_append, hnone]
    simp

theorem getCol_setCol_ne (df : DF) (n m : String) (v : Col) (hnm : m ≠ n) :
    (df.setCol n v).getCol m = df.getCol m := by
  unfold DF.setCol
  by_cases h : df.hasCol n
  · rw [if_pos h]
    unfold DF.getCol
    rw [show (DF.mk (df.cols.map (fun c => if c.1 == n then (n, v) else c))).cols
        = df.cols.map (fun c => if c.1 == n then (n, v) else c) from rfl]
    rw [find?_map_replace_ne df.cols n m v hnm]
  · rw [if_neg h]
    unfold DF.getCol
    rw [show (DF.mk (df.cols ++ [(n, v)])).cols = df.cols ++ [(n, v)] from rfl]
    rw [List.find?_append]
    have hone : List.find? (fun c => c.1 == m) [(n, v)] = none := by
      simp only [List.find?_cons, List.find?_nil]
      have : ((n : String) == m) = false := by
        simp; exact fun hh => hnm hh.symm
      rw [this]
    rw [hone, Option.or_none]

/-! ## Market-cap column lemmas -/

theorem colMulNat_map_some (prices : List ℚ) (k : ℕ) :
    colMulNat (prices.map some) k = prices.map (fun p => some (p * (k : ℚ))) := by
  simp [colMulNat, List.map_map]

theorem length_colDiff (c : Col) : (colDiff c).length = c.length := by
  cases c with
  | nil => simp [colDiff]
  | cons x tail => simp [colDiff, List.length_zipWith]

theorem colDiff_getElem_zero (xs : Col) (h : 0 < xs.length) :
    (colDiff xs)[0]? = some none := by
  cases xs with
  | nil => simp at h
  | cons x tail => simp [colDiff]

theorem colDiff_getElem_succ (xs : Col) (t : ℕ) (a b : ℚ)
    (h1 : xs[t + 1]? = some (some a)) (h2 : xs[t]? = some (some b)) :
    (colDiff xs)[t + 1]? = some (some (a - b)) := by
  cases xs with
  | nil => simp at h1
  | cons x tail =>
      have ht : tail[t]? = some (some a) := by
        rw [← List.getElem?_cons_succ (a := x)]
        exact h1
      simp only [colDiff, List.getElem?_cons_succ, List.getElem?_zipWith, ht, h2]

/-! ## C1: the Market Cap Transformer -/

/-- C1: for every per-symbol series whose effective (adjusted-close)
price is defined at every date and a resolved share count, the
transformer sets `Market Cap`[t] = price[t] × shares at every date t,
sets `Market Cap Change`[t] = `Market Cap`[t] − `Market Cap`[t−1] at
every date after the first, and leaves the first `Market Cap Change`
entry absent (`NaN`), not zero. -/
theorem marketCapTransformer_correct (df : DF) (shares : ℕ) (prices : List ℚ)
    (hadj : df.getCol "Adj Close" = some (prices.map some)) :
    ∃ df2 mc ch,
      addMarketCapCols df shares = some df2 ∧
      df2.getCol "Market Cap" = some mc ∧
      df2.getCol "Market Cap Change" = some ch ∧
      mc = prices.map (fun p => some (p * (shares : ℚ))) ∧
      ch.length = prices.length ∧
      (∀ t a b, mc[t + 1]? = some (some a) → mc[t]? = some (some b) →
        ch[t + 1]? = some (some (a - b))) ∧
      (0 < prices.length → ch[0]? = some none) := by
  have hmc := colMulNat_map_some prices shares
  have hg1 : (df.setCol "Market Cap" (colMulNat (prices.map some) shares)).getCol
      "Market Cap" = some (colMulNat (prices.map some) shares) :=
    getCol_setCol_self df _ _
  have hrun : addMarketCapCols df shares =
      some ((df.setCol "Market Cap" (colMulNat (prices.map some) shares)).setCol
        "Market Cap Change" (colDiff (colMulNat (prices.map some) shares))) := by
    simp [addMarketCapCols, hadj, hg1]
  refine ⟨_, prices.map (fun p => some (p * (shares : ℚ))),
    colDiff (colMulNat (prices.map some) shares), hrun, ?_, ?_, rfl, ?_, ?_, ?_⟩
  · rw [getCol_setCol_ne _ _ _ _ (by decide)]
    rw [hg1, hmc]
  · exact getCol_setCol_self _ _ _
  · rw [length_colDiff, hmc, List.length_map]
  · intro t a b h1 h2
    refine colDiff_getElem_succ _ t a b ?_ ?_
    · rw [hmc]; exact h1
    · rw [hmc]; exact h2
  · intro hpos
    refine colDiff_getElem_zero _ ?_
    rw [hmc, List.length_map]
    exact hpos

/-- Witness for C1: a concrete two-day series with prices 1 and 2 and
share count 3. -/
theorem marketCapTransformer_correct_witness :
    ∃ df2 mc ch,
      addMarketCapCols ⟨[("Adj Close", [some (1 : ℚ), some 2])]⟩ 3 = some df2 ∧
      df2.getCol "Market Cap" = some mc ∧
      df2.getCol "Market Cap Change" = some ch ∧
      mc = [(1 : ℚ), 2].map (fun p => some (p * ((3 : ℕ) : ℚ))) ∧
      ch.length = [(1 : ℚ), 2].length ∧
      (∀ t a b, mc[t + 1]? = some (some a) → mc[t]? = some (some b) →
        ch[t + 1]? = some (some (a - b))) ∧
      (0 < [(1 : ℚ), 2].length → ch[0]? = some none) :=
  marketCapTransformer_correct ⟨[("Adj Close", [some 1, some 2])]⟩ 3 [1, 2] rfl

/-! ## C3: the per-symbol total change -/

theorem map_getD_zipWith_sub (g : ℚ → ℚ) :
    ∀ (as bs : List ℚ),
      (List.zipWith
        (fun cur prev =>
          match cur, prev with
          | some a, some b => some (a - b)
          | _, _ => none)
        (as.map (fun p => some (g p))) (bs.map (fun p => some (g p)))).map
          (fun o => o.getD 0) =
      List.zipWith (fun cur prev => g cur - g prev) as bs
  | [], _ => by simp
  | _ :: _, [] => by simp
  | a :: as, b :: bs => by
      simp only [List.map_cons, List.zipWith_cons_cons]
      rw [map_getD_zipWith_sub g as bs]
      rfl

theorem colSum_colDiff_map (g : ℚ → ℚ) (xs : List ℚ) :
    colSum (colDiff (xs.map (fun p => some (g p)))) =
      (List.zipWith (fun cur prev => g cur - g prev) xs.tail xs).sum := by
  cases xs with
  | nil => simp [colDiff, colSum]
  | cons x tl =>
      have h := map_getD_zipWith_sub g tl (x :: tl)
      simp only [List.map_cons] at h
      simp only [List.map_cons, colDiff, colSum, List.map_cons, List.sum_cons,
        Option.getD_none, List.tail_cons, h, zero_add]

/-- C3: the aggregation computes a symbol's total as
`stock_df["Market Cap Change"].sum()`, which by NaN-skipping equals
the sum of the defined day-over-day changes: the absent first-date
change contributes exactly zero. -/
theorem totalMarketCapChange_sum (stock : String) (df df2 : DF) (shares : ℕ)
    (prices : List ℚ)
    (hadj : df.getCol "Adj Close" = some (prices.map some))
    (hrun : addMarketCapCols df shares = some df2) :
    moverRecords [(stock, df2)] =
      some [⟨stock, (List.zipWith
        (fun cur prev => cur * (shares : ℚ) - prev * (shares : ℚ))
        prices.tail prices).sum⟩] := by
  have hmap := colMulNat_map_some prices shares
  have hg1 : (df.setCol "Market Cap"
      (prices.map (fun p => some (p * (shares : ℚ))))).getCol "Market Cap" =
      some (prices.map (fun p => some (p * (shares : ℚ)))) :=
    getCol_setCol_self df _ _
  have hrun2 : addMarketCapCols df shares =
      some ((df.setCol "Market Cap"
        (prices.map (fun p => some (p * (shares : ℚ))))).setCol "Market Cap Change"
        (colDiff (prices.map (fun p => some (p * (shares : ℚ)))))) := by
    simp [addMarketCapCols, hadj, hmap, hg1]
  rw [hrun2] at hrun
  have hdf2 := Option.some_injective _ hrun
  subst hdf2
  have hchg : ((df.setCol "Market Cap"
      (prices.map (fun p => some (p * (shares : ℚ))))).setCol "Market Cap Change"
      (colDiff (prices.map (fun p => some (p * (shares : ℚ)))))).getCol
      "Market Cap Change" =
      some (colDiff (prices.map (fun p => some (p * (shares : ℚ))))) :=
    getCol_setCol_self _ _ _
  have hsum := colSum_colDiff_map (fun p => p * (shares : ℚ)) prices
  simp [moverRecords, hchg, hsum]

/-- Witness for C3 at the concrete two-day series of the C1 witness. -/
theorem totalMarketCapChange_sum_witness :
    ∃ df2, addMarketCapCols ⟨[("Adj Close", [some (1 : ℚ), some 2])]⟩ 3 = some df2 ∧
      moverRecords [("A", df2)] =
        some [⟨"A", (List.zipWith
          (fun cur prev => cur * ((3 : ℕ) : ℚ) - prev * ((3 : ℕ) : ℚ))
          [(1 : ℚ), 2].tail [(1 : ℚ), 2]).sum⟩] := by
  have h : (addMarketCapCols ⟨[("Adj Close", [some (1 : ℚ), some 2])]⟩ 3).isSome
      = true := rfl
  obtain ⟨df2, h2⟩ := Option.isSome_iff_exists.mp h
  exact ⟨df2, h2, totalMarketCapChange_sum "A"
    ⟨[("Adj Close", [some (1 : ℚ), some 2])]⟩ df2 3 [1, 2] rfl h2⟩

/-! ## C2: the Top-Movers Aggregator -/

instance : IsTotal MoverRecord descByTotal :=
  ⟨fun a b => le_total b.total a.total⟩

instance : IsTrans MoverRecord descByTotal :=
  ⟨fun _ _ _ h1 h2 => le_trans h2 h1⟩

instance : IsTotal MoverRecord ascByTotal :=
  ⟨fun a b => le_total a.total b.total⟩

instance : IsTrans MoverRecord ascByTotal :=
  ⟨fun _ _ _ h1 h2 => le_trans h1 h2⟩

/-- C2: for every list of `MoverRecord`s, the top-gainers list is
sorted descending by total change with length `min 5 n`, and the
top-losers list is sorted ascending with the same length. -/
theorem topMovers_correct (records : List MoverRecord) :
    (topGainers records).length = min 5 records.length ∧
    (topLosers records).length = min 5 records.length ∧
    List.Sorted descByTotal (topGainers records) ∧
    List.Sorted ascByTotal (topLosers records) := by
  refine ⟨?_, ?_, ?_, ?_⟩
  · simp [topGainers, List.length_take, List.length_insertionSort]
  · simp [topLosers, List.length_take, List.length_insertionSort]
  · exact List.Pairwise.sublist (List.take_sublist 5 _)
      (List.sorted_insertionSort descByTotal records)
  · exact List.Pairwise.sublist (List.take_sublist 5 _)
      (List.sorted_insertionSort ascByTotal records)

/-! ## C4: the Per-Symbol Extractor -/

/-- The reference extraction described by the spec (§4.2): the columns
associated with symbol `s` in the multi-indexed table, in source
order, re-labelled by field name alone. -/
def symbolFields (cols : List ((String × String) × Col)) (s : String) :
    List (String × Col) :=
  cols.filterMap (fun c => if c.1.2 == s then some (c.1.1, c.2) else none)

theorem filter_map_eq_symbolFields (cols : List ((String × String) × Col))
    (s : String) :
    (cols.filter (fun c => c.1.2 == s)).map (fun c => (c.1.1, c.2)) =
      symbolFields cols s := by
  induction cols with
  | nil => rfl
  | cons c cs ih =>
      simp only [symbolFields, List.filter_cons, List.filterMap_cons] at *
      cases hc : (c.1.2 == s) with
      | true => simp [hc, ih]
      | false => simp [hc, ih]

/-- C4: for a fetch performed for more than one symbol, extraction
selects the `(field, S)` column pairs and drops the symbol level,
yielding the table of exactly the fields associated with `S`; for a
fetch of exactly one symbol the fetched flat table is used as-is. -/
theorem perSymbolExtractor_correct (stocks : List String) (s : String) :
    (∀ cols, 1 < stocks.length →
      extractStock stocks (.multi cols) s = some ⟨symbolFields cols s⟩) ∧
    (∀ df, stocks.length = 1 →
      extractStock stocks (.single df) s = some df) := by
  constructor
  · intro cols h
    unfold extractStock
    rw [if_pos h]
    show some (DF.mk ((cols.filter (fun c => c.1.2 == s)).map
      (fun c => (c.1.1, c.2)))) = _
    rw [filter_map_eq_symbolFields]
  · intro df h
    unfold extractStock
    rw [if_neg (by omega : ¬ stocks.length > 1)]

/-- Witness for C4: a two-symbol multi-indexed table and a one-symbol
flat table. -/
theorem perSymbolExtractor_correct_witness :
    extractStock ["A", "B"]
      (.multi [(("Close", "A"), [some (1 : ℚ)]), (("Close", "B"), [some 2])]) "A"
      = some ⟨symbolFields
          [(("Close", "A"), [some (1 : ℚ)]), (("Close", "B"), [some 2])] "A"⟩ ∧
    extractStock ["A"] (.single ⟨[("Close", [some (3 : ℚ)])]⟩) "A"
      = some ⟨[("Close", [some (3 : ℚ)])]⟩ :=
  ⟨(perSymbolExtractor_correct ["A", "B"] "A").1 _ (by decide),
   (perSymbolExtractor_correct ["A"] "A").2 _ (by decide)⟩

/-! ## C5: the Price Field Resolver -/

/-- C5: when the adjusted-close column is absent and the close column
is present, the resolver makes the effective price (`"Adj Close"`)
equal the close column exactly, and emits exactly one fallback
notice. -/
theorem priceFieldResolver_fallback (stock : String) (df : DF) (close : Col)
    (habs : df.hasCol "Adj Close" = false)
    (hclose : df.getCol "Close" = some close) :
    ∃ df2, resolveAdjClose stock df = some (df2, [adjCloseWarning stock]) ∧
      df2.getCol "Adj Close" = some close := by
  refine ⟨df.setCol "Adj Close" close, ?_, getCol_setCol_self df _ _⟩
  simp [resolveAdjClose, habs, hclose]

/-- Witness for C5 at a one-column close-only frame. -/
theorem priceFieldResolver_fallback_witness :
    ∃ df2, resolveAdjClose "AAPL" ⟨[("Close", [some (5 : ℚ)])]⟩
        = some (df2, [adjCloseWarning "AAPL"]) ∧
      df2.getCol "Adj Close" = some [some (5 : ℚ)] :=
  priceFieldResolver_fallback "AAPL" ⟨[("Close", [some (5 : ℚ)])]⟩
    [some (5 : ℚ)] rfl rfl

/-! ## C6: date validation -/

/-- C6: for every pair of dates (and every other input), the run
reports the date validation error, executing nothing further, exactly
when start ≥ end. -/
theorem dateValidation_iff (startDate endDate : ℤ) (input : String)
    (fetch : List String → Fetched) (lookup : String → Option ℕ) :
    runApp startDate endDate input fetch lookup = .dateError ↔
      endDate ≤ startDate := by
  constructor
  · intro hout
    by_contra hlt
    simp only [runApp] at hout
    rw [if_neg hlt] at hout
    split at hout
    · exact Outcome.noConfusion hout
    · split at hout
      · exact Outcome.noConfusion hout
      · split at hout
        · exact Outcome.noConfusion hout
        · split at hout
          · exact Outcome.noConfusion hout
          · exact Outcome.noConfusion hout
  · intro h
    simp only [runApp]
    rw [if_pos (show startDate ≥ endDate from h)]

/-! ## C7: the empty-input branch -/

/-- C7 evidence: Python `"".split(",")` yields `[""]`, so the
normalizer maps the empty input to a one-element list containing the
empty symbol, the `if stocks:` truthiness test at line 35 succeeds,
and the "Please enter stock symbols." branch is not taken — with
valid dates the run proceeds to fetch (here: reaching the empty-data
warning), contradicting the claimed empty sequence and notice. -/
theorem emptyInput_runs_pipeline :
    parseStocks "" = [""] ∧
    (∀ (fetch : List String → Fetched) (lookup : String → Option ℕ),
      runApp 0 1 "" fetch lookup ≠ .noSymbolsWarning) ∧
    runApp 0 1 "" (fun _ => .single ⟨[]⟩) (fun _ => none) = .emptyDataWarning := by
  refine ⟨by decide, ?_, by decide⟩
  intro fetch lookup hout
  simp only [runApp] at hout
  rw [if_neg (by decide : ¬ (0 : ℤ) ≥ 1)] at hout
  rw [if_neg (by decide : ¬ (parseStocks "").isEmpty = true)] at hout
  split at hout
  · exact Outcome.noConfusion hout
  · split at hout
    · exact Outcome.noConfusion hout
    · split at hout
      · exact Outcome.noConfusion hout
      · exact Outcome.noConfusion hout

/-! ## C8: the Shares Resolver -/

theorem isSome_bind_some {α β : Type} (x : Option α) (f : α → β) :
    (x.bind (fun a => some (f a))).isSome = x.isSome := by
  cases x <;> rfl

/-- C8: when the outstanding-shares lookup fails for a symbol (any
failure mode), the resolver substitutes the constant 1,000,000,000
and emits exactly one notice naming that symbol; moreover the shares
lookup never decides whether a symbol's processing succeeds, so the
pipeline continues with that symbol and all others exactly as it
would with any working lookup. -/
theorem sharesResolver_fallback (lookup : String → Option ℕ) (s : String)
    (h : lookup s = none) :
    resolveShares lookup s = (1000000000, [sharesWarning s]) ∧
    ∀ (stocks : List String) (data : Fetched) (t : String)
      (lookup2 : String → Option ℕ),
      (processSymbol lookup stocks data t).isSome =
        (processSymbol lookup2 stocks data t).isSome := by
  constructor
  · simp [resolveShares, h]
  · intro stocks data t lookup2
    have key : ∀ (df : DF) (k k2 : ℕ),
        (addMarketCapCols df k).isSome = (addMarketCapCols df k2).isSome := by
      intro df k k2
      cases hadj : df.getCol "Adj Close" with
      | none => simp [addMarketCapCols, hadj]
      | some adj => simp [addMarketCapCols, hadj, getCol_setCol_self]
    simp only [processSymbol, Option.bind_eq_bind]
    cases hx : extractStock stocks data t with
    | none => simp
    | some df0 =>
        simp only [Option.some_bind]
        cases hr : resolveAdjClose t df0 with
        | none => simp
        | some pr =>
            obtain ⟨df1, n1⟩ := pr
            simp only [Option.some_bind, Option.pure_def]
            rw [isSome_bind_some, isSome_bind_some]
            exact key df1 _ _

/-- Witness for C8: a lookup that always fails, at symbol "AAPL". -/
theorem sharesResolver_fallback_witness :
    resolveShares (fun _ => none) "AAPL" = (1000000000, [sharesWarning "AAPL"]) :=
  (sharesResolver_fallback (fun _ => none) "AAPL" rfl).1

/-! ## C9: duplicate symbols -/

/-- A two-day multi-indexed fetch result for the single ticker "A". -/
def dupData : Fetched := .multi [(("Adj Close", "A"), [some 1, some 2])]

/-- A fetch collaborator returning `dupData` for any request. -/
def dupFetch : List String → Fetched := fun _ => dupData

/-- A shares lookup that always succeeds with 10. -/
def dupLookup : String → Option ℕ := fun _ => some 10

/-- C9 counterexample: requesting "A, A" parses to two occurrences of
"A", yet the run's aggregation input holds a single record, because
`stock_data` is a dict keyed by symbol — the second occurrence
overwrites the first instead of contributing its own record. -/
theorem duplicateSymbols_counterexample :
    parseStocks "A, A" = ["A", "A"] ∧
    (match runApp 0 1 "A, A" dupFetch dupLookup with
     | .results _ recs _ _ _ => recs.length
     | _ => 0) = 1 :=
  ⟨by decide, by rfl⟩

/-- The first-occurrence deduplication that a Python dict performs on
its keys as entries are assigned in order. -/
def dedupFirst (l : List String) : List String :=
  l.foldl (fun ks s => if ks.any (fun x => x == s) then ks else ks ++ [s]) []

theorem dictInsert_keys {α : Type} (d : List (String × α)) (k : String) (v : α) :
    (dictInsert d k v).map Prod.fst =
      if (d.map Prod.fst).any (fun x => x == k) then d.map Prod.fst
      else d.map Prod.fst ++ [k] := by
  unfold dictInsert
  have hpt : ∀ p : String × α, (if p.1 == k then (k, v) else p).1 = p.1 := by
    intro p
    by_cases hp : p.1 = k
    · simp [hp]
    · simp [hp]
  have hany : ((d.map Prod.fst).any fun x => x == k) = (d.any fun p => p.1 == k) := by
    induction d with
    | nil => rfl
    | cons p ps ihd => simp only [List.map_cons, List.any_cons, ihd]
  rw [hany]
  by_cases hc : (d.any fun p => p.1 == k) = true
  · rw [if_pos hc, if_pos hc, List.map_map]
    rw [show (Prod.fst ∘ fun p : String × α => if p.1 == k then (k, v) else p)
        = (Prod.fst : String × α → String) from funext hpt]
  · rw [if_neg hc, if_neg hc, List.map_append]
    rfl

theorem processAll_keys_go (lookup : String → Option ℕ) (data : Fetched)
    (stocksAll : List String) :
    ∀ (stocks : List String) (acc res : List (String × DF) × List String),
      List.foldlM (fun acc stock => do
          let (df, ns) ← processSymbol lookup stocksAll data stock
          return (dictInsert acc.1 stock df, acc.2 ++ ns)) acc stocks = some res →
      res.1.map Prod.fst =
        stocks.foldl (fun ks s => if ks.any (fun x => x == s) then ks else ks ++ [s])
          (acc.1.map Prod.fst) := by
  intro stocks
  induction stocks with
  | nil =>
      intro acc res h
      simp only [List.foldlM_nil, pure, Option.some_inj] at h
      subst h
      rfl
  | cons s ss ih =>
      intro acc res h
      rw [List.foldlM_cons] at h
      simp only [Option.bind_eq_bind] at h
      cases hstep : processSymbol lookup stocksAll data s with
      | none => rw [hstep] at h; simp at h
      | some pr =>
          obtain ⟨df, ns⟩ := pr
          rw [hstep] at h
          simp only [Option.some_bind, Option.pure_def] at h
          have h2 := ih (dictInsert acc.1 s df, acc.2 ++ ns) res h
          rw [h2, List.foldl_cons]
          rw [show (dictInsert acc.1 s df, acc.2 ++ ns).1 = dictInsert acc.1 s df
            from rfl]
          rw [dictInsert_keys]

theorem moverRecords_stocks (sd : List (String × DF)) (recs : List MoverRecord)
    (h : moverRecords sd = some recs) :
    recs.map MoverRecord.stock = sd.map Prod.fst := by
  induction sd generalizing recs with
  | nil =>
      simp only [moverRecords, Option.some_inj] at h
      subst h
      rfl
  | cons p ps ih =>
      simp only [moverRecords, Option.bind_eq_bind] at h
      cases hc : p.2.getCol "Market Cap Change" with
      | none => rw [hc] at h; simp at h
      | some ch =>
          rw [hc] at h
          simp only [Option.some_bind] at h
          cases hr : moverRecords ps with
          | none => rw [hr] at h; simp at h
          | some rs =>
              rw [hr] at h
              simp only [Option.some_bind, Option.pure_def, Option.some_inj] at h
              subst h
              simp [ih rs hr]

/-- C9 amended: every occurrence in the input is processed by the
loop, but `stock_data` is a dict keyed by symbol, so the aggregation
receives exactly one record per distinct symbol, in first-occurrence
order — a duplicated symbol does not double-count. -/
theorem duplicateSymbols_amended (lookup : String → Option ℕ)
    (stocks : List String) (data : Fetched)
    (sd : List (String × DF)) (ns : List String)
    (h : processAll lookup stocks data = some (sd, ns)) :
    sd.map Prod.fst = dedupFirst stocks ∧
    ∀ recs, moverRecords sd = some recs →
      recs.map MoverRecord.stock = dedupFirst stocks := by
  have hkeys := processAll_keys_go lookup data stocks stocks ([], []) (sd, ns) h
  constructor
  · exact hkeys
  · intro recs hr
    rw [moverRecords_stocks sd recs hr]
    exact hkeys

/-- Witness for C9's amended statement on the concrete duplicate run. -/
theorem duplicateSymbols_amended_witness :
    ∃ sd ns, processAll dupLookup ["A", "A"] dupData = some (sd, ns) ∧
      sd.map Prod.fst = dedupFirst ["A", "A"] := by
  have h : (processAll dupLookup ["A", "A"] dupData).isSome = true := rfl
  obtain ⟨r, hr⟩ := Option.isSome_iff_exists.mp h
  obtain ⟨sd, ns⟩ := r
  exact ⟨sd, ns, hr, (duplicateSymbols_amended dupLookup ["A", "A"] dupData sd ns hr).1⟩

/-! ## C10: the fetched table is never mutated -/

theorem readT_append (heap : Heap) (t : Fetched) (i : ℕ) (h : i < heap.length) :
    readT (heap ++ [t]) i = readT heap i := by
  simp [readT, List.getElem?_append, h]

theorem readT_writeT_ne (heap : Heap) (r : Ref) (t : Fetched) (i : ℕ)
    (hne : r ≠ i) :
    readT (writeT heap r t) i = readT heap i := by
  simp [readT, writeT, List.getElem?_set_ne hne]

theorem processSymbolS_frame (lookup : String → Option ℕ) (stocks : List String)
    (dataRef : Ref) (heap : Heap) (stock : String) (h2 : Heap) (r : Ref)
    (h : processSymbolS lookup stocks dataRef heap stock = some (h2, r)) :
    (∀ i, i < heap.length → readT h2 i = readT heap i) ∧
      heap.length ≤ h2.length := by
  simp only [processSymbolS, allocT, Option.bind_eq_bind] at h
  cases hd : readT heap dataRef with
  | none => rw [hd] at h; simp at h
  | some dataT =>
      rw [hd] at h
      simp only [Option.some_bind] at h
      cases he : extractStock stocks dataT stock with
      | none => rw [he] at h; simp at h
      | some df0 =>
          rw [he] at h
          simp only [Option.some_bind] at h
          cases hr2 : resolveAdjClose stock df0 with
          | none => rw [hr2] at h; simp at h
          | some pr =>
              obtain ⟨df1, n1⟩ := pr
              rw [hr2] at h
              simp only [Option.some_bind] at h
              cases hm : addMarketCapCols df1 (resolveShares lookup stock).1 with
              | none => rw [hm] at h; simp at h
              | some df2 =>
                  rw [hm] at h
                  simp only [Option.some_bind, Option.pure_def, Option.some_inj,
                    Prod.mk.injEq] at h
                  obtain ⟨hh2, hr3⟩ := h
                  subst hh2
                  constructor
                  · intro i hi
                    have hne : heap.length ≠ i := by omega
                    rw [readT_writeT_ne _ _ _ _ hne]
                    rw [readT_writeT_ne _ _ _ _ hne]
                    exact readT_append heap _ i hi
                  · simp [writeT, List.length_set]

theorem processAllS_go_frame (lookup : String → Option ℕ)
    (stocksAll : List String) (dataRef : Ref) :
    ∀ (stocks : List String) (acc res : Heap × List (String × Ref)),
      List.foldlM (fun acc stock => do
          let (h2, r) ← processSymbolS lookup stocksAll dataRef acc.1 stock
          return (h2, dictInsert acc.2 stock r)) acc stocks = some res →
      (∀ i, i < acc.1.length → readT res.1 i = readT acc.1 i) ∧
        acc.1.length ≤ res.1.length := by
  intro stocks
  induction stocks with
  | nil =>
      intro acc res h
      simp only [List.foldlM_nil, pure, Option.some_inj] at h
      subst h
      exact ⟨fun i _ => rfl, le_refl _⟩
  | cons s ss ih =>
      intro acc res h
      rw [List.foldlM_cons] at h
      simp only [Option.bind_eq_bind] at h
      cases hstep : processSymbolS lookup stocksAll dataRef acc.1 s with
      | none => rw [hstep] at h; simp at h
      | some pr =>
          obtain ⟨hp2, r⟩ := pr
          rw [hstep] at h
          simp only [Option.some_bind, Option.pure_def] at h
          have hframe := processSymbolS_frame lookup stocksAll dataRef acc.1 s
            hp2 r hstep
          have hrest := ih (hp2, dictInsert acc.2 s r) res h
          constructor
          · intro i hi
            rw [hrest.1 i (lt_of_lt_of_le hi hframe.2)]
            exact hframe.1 i hi
          · exact le_trans hframe.2 hrest.2

/-- C10: under the explicit heap semantics of the per-stock loop, the
processing of every symbol writes only to that symbol's freshly
allocated copy: every heap cell that existed before the loop — in
particular the fetched table at `dataRef` — reads back unchanged
after the whole loop. -/
theorem processing_preserves_fetched (lookup : String → Option ℕ)
    (stocks : List String) (dataRef : Ref) (heap : Heap)
    (res : Heap × List (String × Ref))
    (h : processAllS lookup stocks dataRef heap = some res) :
    (∀ i, i < heap.length → readT res.1 i = readT heap i) ∧
    (dataRef < heap.length → readT res.1 dataRef = readT heap dataRef) := by
  have hgo := processAllS_go_frame lookup stocks dataRef stocks (heap, []) res h
  exact ⟨hgo.1, fun hd => hgo.1 dataRef hd⟩

/-- Witness for C10: a concrete heap holding only the fetched table,
processed for the duplicate request of the C9 witness. -/
theorem processing_preserves_fetched_witness :
    ∃ res, processAllS dupLookup ["A", "A"] 0 [dupData] = some res ∧
      readT res.1 0 = readT [dupData] 0 := by
  have h : (processAllS dupLookup ["A", "A"] 0 [dupData]).isSome = true := rfl
  obtain ⟨res, hres⟩ := Option.isSome_iff_exists.mp h
  exact ⟨res, hres,
    (processing_preserves_fetched dupLookup ["A", "A"] 0 [dupData] res hres).2
      (by decide)⟩
